import Mathlib

/-!
# Verification of the GlipaBot media store and scan/post pipeline

A shallow embedding of `src/GlipaBot.py`.  Python strings are modelled as
`List Char`; Python dicts (which preserve insertion order) are modelled as
association lists; the two persisted files are modelled by their contents
(the link file as raw text, the metadata file as the JSON array of records
it serialises).  Fallible or exception-raising paths are made explicit.
-/

namespace GlipaBot

/-- The characters of a string literal (Python `str` as `List Char`). -/
def chars (s : String) : List Char := s.data

/-- Python whitespace (`str.strip()` / `str.isspace()` / regex `\s` on
`str` patterns): the characters CPython's `Py_UNICODE_ISSPACE` accepts —
ASCII whitespace `\t \n \v \f \r` and space, the separators
U+001C–U+001F, NEL U+0085, and the Unicode space separators Zs
(U+00A0, U+1680, U+2000–U+200A, U+202F, U+205F, U+3000), Zl U+2028 and
Zp U+2029. -/
def isSpaceChar (c : Char) : Bool :=
  c = ' ' || c = '\t' || c = '\n' || c = '\r' || c = '\x0b' || c = '\x0c' ||
  c = '\x1c' || c = '\x1d' || c = '\x1e' || c = '\x1f' ||
  c = '\x85' || c = '\xa0' || c = '\u1680' ||
  ('\u2000' ≤ c && c ≤ '\u200A') ||
  c = '\u2028' || c = '\u2029' || c = '\u202F' || c = '\u205F' || c = '\u3000'

/-- Python `str.strip()`: drop leading and trailing whitespace. -/
def strip (l : List Char) : List Char :=
  ((l.dropWhile isSpaceChar).reverse.dropWhile isSpaceChar).reverse

/-- Python `sub in s` (substring containment). -/
def containsSub (pat : List Char) : List Char → Bool
  | [] => pat.isEmpty
  | c :: rest => pat.isPrefixOf (c :: rest) || containsSub pat rest

/-- Python `s.startswith(p)`. -/
def isPre (p : String) (s : List Char) : Bool :=
  p.data.isPrefixOf s

/-- The blocklisted substring `media.tenor.com`. -/
def mediaTenorPat : List Char := chars "media.tenor.com"

/-- The scheme check `url.startswith('http://') or url.startswith('https://')`
(GlipaBot.py:194). -/
def url_scheme_ok (s : List Char) : Bool :=
  isPre "http://" s || isPre "https://" s

/-- One record of the metadata file: the dict built at GlipaBot.py:204-209
(`url`, `date_added`, `type`, `generated_text`).  The timestamp
`datetime.now().isoformat()` is passed in explicitly as `date_added`. -/
structure MediaMeta where
  url : List Char
  date_added : List Char
  type : List Char
  generated_text : List Char
deriving DecidableEq

/-- The in-memory `media_cache`: the ordered link list and the
URL → metadata dict (`media_cache['links']` / `media_cache['metadata']`).
Python dicts keep insertion order, so the dict is an association list. -/
structure MediaCache where
  links : List (List Char)
  metadata : List (List Char × MediaMeta)
deriving DecidableEq

/-- The empty store. -/
def emptyCache : MediaCache := ⟨[], []⟩

/-- Python `d[k] = v`: replace in place if the key exists, else append. -/
def dictInsert (m : List (List Char × MediaMeta)) (k : List Char) (v : MediaMeta) :
    List (List Char × MediaMeta) :=
  match m with
  | [] => [(k, v)]
  | (k', v') :: rest => if k' = k then (k, v) :: rest else (k', v') :: dictInsert rest k v

/-- Python `d[k]` as an `Option` (used only to state properties). -/
def dictLookup (m : List (List Char × MediaMeta)) (k : List Char) : Option MediaMeta :=
  match m with
  | [] => none
  | (k', v) :: rest => if k' = k then some v else dictLookup rest k

/-- Python `del d[k]`: remove the (unique) binding of `k`. -/
def dictDelete (m : List (List Char × MediaMeta)) (k : List Char) :
    List (List Char × MediaMeta) :=
  m.filter (fun p => ¬ p.1 = k)

/-- A Python value passed as the `url` argument of `add_media`: either a
string, or any non-string value (`None`, a number, …) abstracted by its
truthiness, which is all `add_media` ever inspects of a non-string. -/
inductive PyVal where
  | str (s : List Char)
  | nonStr (truthy : Bool)
deriving DecidableEq

/-- The function `add_media(url, media_type, generated_text)`
(GlipaBot.py:183-212).
Returns the Python return value and the updated cache.  For a non-string
`url`, `not url or not isinstance(url, str)` is true whatever the
truthiness, so the function returns `False` before ever applying `len`
or `startswith` to the value. -/
def add_media (cache : MediaCache) (url : PyVal)
    (media_type generated_text now : List Char) : Bool × MediaCache :=
  match url with
  | .nonStr _ => (false, cache)
  | .str s =>
    if s = [] ∨ s.length < 10 then (false, cache)
    else if s ∈ cache.links then (false, cache)
    else if ¬ url_scheme_ok s = true then (false, cache)
    else if containsSub mediaTenorPat s = true then (false, cache)
    else (true, ⟨cache.links ++ [s],
                 dictInsert cache.metadata s ⟨s, now, media_type, generated_text⟩⟩)

/-- The function `get_random_media()` (GlipaBot.py:215-219): `None` on an empty store,
otherwise `random.choice`, modelled by an arbitrary index `pick` reduced
modulo the length. -/
def get_random_media (links : List (List Char)) (pick : Nat) : Option (List Char) :=
  if links.isEmpty then none else links.get? (pick % links.length)

/-- The contents of the two persisted files: the raw text of
`media_links.txt` and the `"media"` array of `media_metadata.json`. -/
structure MediaFiles where
  linksText : List Char
  mediaArr : List MediaMeta
deriving DecidableEq

/-- The function `save_media_data()` (GlipaBot.py:163-180): writes each link followed by
a newline, and serialises `list(media_cache['metadata'].values())`. -/
def save_media_data (c : MediaCache) : MediaFiles :=
  ⟨(c.links.map (fun l => l ++ ['\n'])).flatten, c.metadata.map Prod.snd⟩

/-- Split a character list at every occurrence of `sep` (how iterating a
Python text file splits its contents into lines, with the separators
removed; `strip` then removes any line-end remnants). -/
def splitOnChar (sep : Char) : List Char → List (List Char)
  | [] => [[]]
  | c :: rest =>
    let r := splitOnChar sep rest
    if c = sep then [] :: r
    else
      match r with
      | [] => [[c]]
      | h :: t => (c :: h) :: t

/-- Universal-newline translation performed by Python text-mode reading
(`open(..., 'r')` with the default `newline=None`): each `"\r\n"` pair
and each lone `'\r'` becomes one `'\n'`. -/
def univNewlines : List Char → List Char
  | [] => []
  | '\r' :: '\n' :: rest => '\n' :: univNewlines rest
  | '\r' :: rest => '\n' :: univNewlines rest
  | c :: rest => c :: univNewlines rest

/-- The link list `load_media_data` builds (GlipaBot.py:141-143):
`[line.strip() for line in f if line.strip()]`, where iterating the
text-mode file splits its universal-newline-translated contents at every
`'\n'`. -/
def load_links (content : List Char) : List (List Char) :=
  ((splitOnChar '\n' (univNewlines content)).map strip).filter
    (fun l => ¬ l.isEmpty = true)

/-- The metadata dict `load_media_data` builds (GlipaBot.py:150):
`{item['url']: item for item in data.get('media', [])}` — sequential
keyed insertion, later duplicates overwriting in place. -/
def load_meta (items : List MediaMeta) : List (List Char × MediaMeta) :=
  items.foldl (fun m item => dictInsert m item.url item) []

/-- The function `load_media_data()` (GlipaBot.py:136-160): the cache is replaced
wholesale by whatever the two files contain. -/
def load_media_data (files : MediaFiles) : MediaCache :=
  ⟨load_links files.linksText, load_meta files.mediaArr⟩

/-- The result of `clean_tenor_media_from_storage`: the count returned,
the cache afterwards, and the files written (`none` when nothing was
persisted). -/
structure CleanResult where
  removed : Nat
  cache : MediaCache
  saved : Option MediaFiles
deriving DecidableEq

/-- The function `clean_tenor_media_from_storage()` (GlipaBot.py:222-247): filter the
link list, delete every matching metadata key, persist iff the count is
positive. -/
def clean_tenor_media_from_storage (c : MediaCache) : CleanResult :=
  let initial_count := c.links.length
  let links' := c.links.filter (fun url => ¬ containsSub mediaTenorPat url = true)
  let tenor_urls := (c.metadata.map Prod.fst).filter
    (fun url => containsSub mediaTenorPat url)
  let metadata' := tenor_urls.foldl (fun m url => dictDelete m url) c.metadata
  let removed_count := initial_count - links'.length
  { removed := removed_count
    cache := ⟨links', metadata'⟩
    saved := if removed_count > 0 then some (save_media_data ⟨links', metadata'⟩) else none }

/-- The store invariant of the spec (§3): no duplicate URL in the ordered
sequence; every URL of the sequence has exactly one metadata entry; every
metadata entry's URL appears in the sequence. -/
def StoreInv (c : MediaCache) : Prop :=
  c.links.Nodup ∧
  (∀ u ∈ c.links, (c.metadata.map Prod.fst).count u = 1) ∧
  (∀ p ∈ c.metadata, p.1 ∈ c.links)

instance storeInvDecidable (c : MediaCache) : Decidable (StoreInv c) := by
  unfold StoreInv; infer_instance

/-- ASCII lower-casing, as Python `str.lower()` acts on the characters the
source's patterns involve. -/
def toLowerChar (c : Char) : Char :=
  if 'A' ≤ c ∧ c ≤ 'Z' then Char.ofNat (c.toNat + 32) else c

/-- Case-insensitive `startswith` against a lowercase pattern. -/
def isPreCI (p : String) (s : List Char) : Bool :=
  p.data.isPrefixOf (s.map toLowerChar)

/-- The type test `url.lower().endswith('.gif')` (GlipaBot.py:383). -/
def lowerEndsWithGif (s : List Char) : Bool :=
  (chars ".gif").isSuffixOf (s.map toLowerChar)

/-- A regex character class `[^\s>]`. -/
def notSpaceGt (c : Char) : Bool := ¬ (isSpaceChar c || c = '>') = true

/-- Attempt the pattern `https?://(?:www\.)?tenor\.com/(?:ru/)?view/[^\s>]*`
(GlipaBot.py:366-369) at the start of `s`; on success return the match and
the remainder.  Each optional group is a two-way literal alternative, and
the trailing class is matched greedily, exactly as the backtracking engine
resolves this pattern. -/
def matchTenorAt (s : List Char) : Option (List Char × List Char) :=
  let n1 :=
    if isPre "https://" s then some 8
    else if isPre "http://" s then some 7 else none
  match n1 with
  | none => none
  | some a =>
    let t1 := s.drop a
    let n2 :=
      if isPre "www.tenor.com/" t1 then some 14
      else if isPre "tenor.com/" t1 then some 10 else none
    match n2 with
    | none => none
    | some b =>
      let t2 := t1.drop b
      let n3 :=
        if isPre "ru/view/" t2 then some 8
        else if isPre "view/" t2 then some 5 else none
      match n3 with
      | none => none
      | some c =>
        let t3 := t2.drop c
        let trail := t3.takeWhile notSpaceGt
        let total := a + b + c + trail.length
        some (s.take total, s.drop total)

/-- The extension alternatives `gif|jpg|jpeg|png|webp`, in the pattern's
alternation order. -/
def imageExts : List (List Char) :=
  [chars "gif", chars "jpg", chars "jpeg", chars "png", chars "webp"]

/-- First extension (in alternation order) matching at the start of `l`,
case-insensitively. -/
def extAt (l : List Char) : Option (List Char) :=
  imageExts.find? (fun e => e.isPrefixOf (l.map toLowerChar))

/-- The rightmost index `i` of `run` holding a `'.'` followed by an image
extension — the position the greedy `[^\s]*` backtracks to. -/
def findDotExt (run : List Char) : Option Nat :=
  (List.range run.length).reverse.find?
    (fun i => decide ((run.drop i).head? = some '.') && (extAt (run.drop (i + 1))).isSome)

/-- Attempt `https?://[^\s]*\.(?:gif|jpg|jpeg|png|webp)[^\s>]*` with
`re.IGNORECASE` (GlipaBot.py:375-379) at the start of `s`.  The greedy
`[^\s]*` settles on the rightmost `.ext` inside the maximal non-space run
(the rest of the pattern always succeeds from there), then `[^\s>]*` is
greedy. -/
def matchImageAt (s : List Char) : Option (List Char × List Char) :=
  let n1 :=
    if isPreCI "https://" s then some 8
    else if isPreCI "http://" s then some 7 else none
  match n1 with
  | none => none
  | some a =>
    let run := (s.drop a).takeWhile (fun c => ¬ isSpaceChar c = true)
    match findDotExt run with
    | none => none
    | some i =>
      match extAt (run.drop (i + 1)) with
      | none => none
      | some e =>
        let afterExt := i + 1 + e.length
        let trail := (run.drop afterExt).takeWhile notSpaceGt
        let total := a + afterExt + trail.length
        some (s.take total, s.drop total)

/-- Python `re.findall` for an unanchored pattern: scan left to right, emit each
match and resume after it, else advance one character.  Both matchers
consume at least one character on success, so `s.length` steps of fuel
make this total without changing the result. -/
def findallAux (matchAt : List Char → Option (List Char × List Char)) :
    Nat → List Char → List (List Char)
  | 0, _ => []
  | _ + 1, [] => []
  | fuel + 1, c :: rest =>
    match matchAt (c :: rest) with
    | some (m, r) => m :: findallAux matchAt fuel r
    | none => findallAux matchAt fuel rest

/-- Python `re.findall(pattern, s)` for the two patterns above. -/
def re_findall (matchAt : List Char → Option (List Char × List Char))
    (s : List Char) : List (List Char) :=
  findallAux matchAt s.length s

/-- A message attachment: its URL and its (possibly absent) declared
content type. -/
structure Attachment where
  url : List Char
  content_type : Option (List Char)
deriving DecidableEq

/-- A channel message as the scan consumes it: attachments and raw text. -/
structure Message where
  attachments : List Attachment
  content : List Char
deriving DecidableEq

/-- The per-attachment step of `perform_scan` (GlipaBot.py:354-361):
`content_type` must be truthy and start with `image/` (or equal
`image/gif`, which the first disjunct subsumes); classify `gif` when the
content type mentions `gif`. -/
def scan_attachment (st : MediaCache × Nat) (a : Attachment) (now : List Char) :
    MediaCache × Nat :=
  match a.content_type with
  | none => st
  | some ct =>
    if ¬ ct.isEmpty = true ∧ (isPre "image/" ct ∨ ct = chars "image/gif") then
      let media_type := if containsSub (chars "gif") ct then chars "gif" else chars "image"
      let r := add_media st.1 (.str a.url) media_type [] now
      (r.2, if r.1 then st.2 + 1 else st.2)
    else st

/-- The per-message step of `perform_scan` (GlipaBot.py:352-385):
attachments first, then the Tenor-view pattern over the raw text, then the
generic image pattern — skipping any match containing `tenor.com` or
`media.tenor.com`. -/
def scan_message (st : MediaCache × Nat) (msg : Message) (now : List Char) :
    MediaCache × Nat :=
  let st1 := msg.attachments.foldl (fun st a => scan_attachment st a now) st
  if msg.content.isEmpty then st1
  else
    let st2 := (re_findall matchTenorAt msg.content).foldl (fun st url =>
      let r := add_media st.1 (.str url) (chars "gif") [] now
      (r.2, if r.1 then st.2 + 1 else st.2)) st1
    (re_findall matchImageAt msg.content).foldl (fun st url =>
      if ¬ (containsSub (chars "tenor.com") url ∨ containsSub mediaTenorPat url) then
        let media_type := if lowerEndsWithGif url then chars "gif" else chars "image"
        let r := add_media st.1 (.str url) media_type [] now
        (r.2, if r.1 then st.2 + 1 else st.2)
      else st) st2

/-- The task body `perform_scan` (GlipaBot.py:345-404) restricted to its pure core: fold
the extraction over the channel history, returning the final cache and
`found_count`. -/
def perform_scan (msgs : List Message) (c : MediaCache) (now : List Char) :
    MediaCache × Nat :=
  msgs.foldl (fun st m => scan_message st m now) (c, 0)

/-- One piece of a caption template: literal text, the `greeting` or
`adjective` placeholder, or a placeholder with any other key (on which
Python `str.format` raises `KeyError`). -/
inductive TPart where
  | lit (s : List Char)
  | greeting
  | adjective
  | other (key : List Char)
deriving DecidableEq

/-- A caption template, as `str.format` parses it. -/
abbrev Template := List TPart

/-- The parsed `word_base.json`: the three keys `generate_message` reads,
each possibly absent. -/
structure WordBase where
  templates : Option (List Template)
  greetings : Option (List (List Char))
  descriptive_words : Option (List (List Char))
deriving DecidableEq

/-- Python truthiness of the parsed dict: falsy exactly when empty (no
keys at all).  Keys other than the three read are irrelevant to
`generate_message` and not modelled. -/
def wbFalsy (w : WordBase) : Bool :=
  w.templates.isNone && w.greetings.isNone && w.descriptive_words.isNone

/-- Python `random.choice(l)`: `none` models the `IndexError` on an empty
sequence; otherwise an arbitrary index `i` reduced modulo the length. -/
def pyChoice {α : Type} (l : List α) (i : Nat) : Option α :=
  if l.isEmpty then none else l.get? (i % l.length)

/-- The fixed fallback caption (GlipaBot.py:254 and 264). -/
def defaultCaption : List Char := chars "Check out this awesome content!"

/-- The fallback greeting pool element (GlipaBot.py:258). -/
def defaultGreeting : List Char := chars "Check this out!"

/-- The fallback adjective pool element (GlipaBot.py:259). -/
def defaultAdjective : List Char := chars "amazing"

/-- Python `template.format(greeting=g, adjective=a)`: `none` models the
`KeyError` raised on a placeholder other than the two supplied. -/
def formatTemplate : Template → List Char → List Char → Option (List Char)
  | [], _, _ => some []
  | p :: rest, g, a =>
    match formatTemplate rest g a with
    | none => none
    | some r =>
      match p with
      | .lit s => some (s ++ r)
      | .greeting => some (g ++ r)
      | .adjective => some (a ++ r)
      | .other _ => none

/-- The function `generate_message()` (GlipaBot.py:250-264).  `wb` is what
`load_word_base()` returned (`none` on a missing or unparsable file);
`i j k` supply the three `random.choice` draws.  Both caught exception
paths (`IndexError` from a choice over an empty pool, `KeyError` from
interpolation) end in the fixed default caption. -/
def generate_message (wb : Option WordBase) (i j k : Nat) : List Char :=
  match wb with
  | none => defaultCaption
  | some w =>
    if wbFalsy w then defaultCaption
    else
      match pyChoice (w.templates.getD []) i,
            pyChoice (w.greetings.getD [defaultGreeting]) j,
            pyChoice (w.descriptive_words.getD [defaultAdjective]) k with
      | some t, some g, some a =>
        match formatTemplate t g a with
        | some m => m
        | none => defaultCaption
      | _, _, _ => defaultCaption

/-- The gate `should_post_media()` (GlipaBot.py:267-269): the uniform draw compared
against the configured probability. -/
def should_post_media (draw prob : Rat) : Bool := draw < prob

/-- An observable effect of one firing of `media_posting_loop`. -/
inductive Action where
  | sleep (offset : Int)
  | send (channel : Nat) (msg : List Char)
deriving DecidableEq

/-- The environment of one firing of `media_posting_loop`: the settings
consulted, the random values drawn, the files the reload reads, and the
channel predicates of the host platform. -/
structure PostEnv where
  posting_enabled : Bool
  posting_probability : Rat
  offset : Int
  draw : Rat
  files : MediaFiles
  pick : Nat
  target_channels : List Nat
  channel_exists : Nat → Bool
  can_send : Nat → Bool
  caption : List Char

/-- One firing of `media_posting_loop` (GlipaBot.py:496-554) as the list
of its observable actions, in order: return if disabled; sleep the
jitter; return on a failed probability roll; reload and sample, returning
if empty; return if no target channels; per target channel, skip missing
or unsendable channels and otherwise send the caption then the bare
URL. -/
def media_posting_cycle (e : PostEnv) : List Action :=
  if ¬ e.posting_enabled = true then []
  else
    Action.sleep e.offset ::
    (if ¬ should_post_media e.draw e.posting_probability = true then []
     else
       let c := load_media_data e.files
       match get_random_media c.links e.pick with
       | none => []
       | some url =>
         if e.target_channels.isEmpty then []
         else
           (e.target_channels.map (fun cid =>
             if ¬ e.channel_exists cid = true then []
             else if ¬ e.can_send cid = true then []
             else [Action.send cid e.caption, Action.send cid url])).flatten)

/-! ### Concrete instances used in witnesses and counterexamples -/

/-- The four-message channel history of the scan scenario (spec §8). -/
def scenarioMsgs : List Message :=
  [ ⟨[⟨chars "https://cdn.discordapp.com/attachments/1/2/dance.gif",
       some (chars "image/gif")⟩], []⟩
  , ⟨[], chars "https://tenor.com/view/cat-dance-12345"⟩
  , ⟨[], chars "https://cdn.example.com/pic.PNG"⟩
  , ⟨[], chars "https://media.tenor.com/abc.gif"⟩ ]

/-- A URL that `add_media` accepts (scheme ok, length 11) although it ends
in a space, so the line-based link file cannot reproduce it. -/
def ceUrl : List Char := chars "https://ab "

/-- The store reached from empty by adding `ceUrl`. -/
def ceCache : MediaCache :=
  (add_media emptyCache (.str ceUrl) (chars "image") [] (chars "t0")).2

/-- A well-formed single-entry store with an ordinary URL. -/
def oneCache : MediaCache :=
  ⟨[chars "https://example.com/a.png"],
   [(chars "https://example.com/a.png",
     ⟨chars "https://example.com/a.png", chars "t1", chars "image", []⟩)]⟩

/-- A link file whose text repeats one URL on two lines: loading it
produces a duplicated ordered sequence. -/
def dupFiles : MediaFiles := ⟨chars "https://example.com/a.png\nhttps://example.com/a.png", []⟩

/-- A well-formed template bank that lacks the `greetings` key. -/
def wbNoGreetings : WordBase :=
  ⟨some [[.greeting, .lit (chars " is "), .adjective]], none, some [chars "cool"]⟩

/-- A posting-cycle environment: posting enabled, probability zero, a
non-empty store and one reachable, sendable target channel. -/
def probZeroEnv : PostEnv :=
  { posting_enabled := true
    posting_probability := 0
    offset := 42
    draw := 1/2
    files := save_media_data oneCache
    pick := 0
    target_channels := [7]
    channel_exists := fun _ => true
    can_send := fun _ => true
    caption := chars "hi there" }

/-! ### Helper lemmas -/

/-- Running `add_media` on a string as a single case split: rejection (with the
claim's order of the four conditions) leaves the cache untouched, success
appends and records. -/
theorem add_media_ite (c : MediaCache) (s mt gt now : List Char) :
    add_media c (.str s) mt gt now =
      if s = [] ∨ s.length < 10 ∨ url_scheme_ok s = false ∨ s ∈ c.links ∨
         containsSub mediaTenorPat s = true
      then (false, c)
      else (true, ⟨c.links ++ [s], dictInsert c.metadata s ⟨s, now, mt, gt⟩⟩) := by
  by_cases hB : s = [] ∨ s.length < 10 ∨ url_scheme_ok s = false ∨ s ∈ c.links ∨
      containsSub mediaTenorPat s = true
  · rw [if_pos hB]
    simp only [add_media]
    by_cases h1 : s = [] ∨ s.length < 10
    · rw [if_pos h1]
    · rw [if_neg h1]
      by_cases h2 : s ∈ c.links
      · rw [if_pos h2]
      · rw [if_neg h2]
        by_cases h3 : ¬ url_scheme_ok s = true
        · rw [if_pos h3]
        · rw [if_neg h3]
          have h4 : containsSub mediaTenorPat s = true := by
            rcases hB with h | h | h | h | h
            · exact absurd (Or.inl h) h1
            · exact absurd (Or.inr h) h1
            · simp_all
            · exact absurd h h2
            · exact h
          rw [if_pos h4]
  · rw [if_neg hB]
    push_neg at hB
    obtain ⟨hb1, hb2, hb3, hb4, hb5⟩ := hB
    simp only [add_media]
    have hg1 : ¬ (s = [] ∨ s.length < 10) := by
      rintro (h | h)
      · exact hb1 h
      · omega
    rw [if_neg hg1, if_neg hb4, if_neg (by simp_all), if_neg hb5]

/-! ### Claims -/

/-- C1: `add(url, type, caption)` returns false and leaves the store
unchanged when the url is empty or shorter than 10 characters, lacks an
`http://`/`https://` scheme, is already present by exact match, or
contains `media.tenor.com`; otherwise it returns true, appends the url to
the ordered sequence, and records a metadata entry with that type, the
timestamp, and the caption.  Duplicates and invalid inputs alike yield
false. -/
theorem add_media_correct (c : MediaCache) (s mt gt now : List Char) :
    add_media c (.str s) mt gt now =
      if s = [] ∨ s.length < 10 ∨ url_scheme_ok s = false ∨ s ∈ c.links ∨
         containsSub mediaTenorPat s = true
      then (false, c)
      else (true, ⟨c.links ++ [s], dictInsert c.metadata s ⟨s, now, mt, gt⟩⟩) :=
  add_media_ite c s mt gt now

/-- C10: at the public interface `add` is total over arbitrary `url`
arguments: for `None` or any non-string value — whatever its truthiness —
it returns false and leaves the store unchanged, never applying the
length or scheme checks to the value. -/
theorem add_media_nonstring (c : MediaCache) (t : Bool) (mt gt now : List Char) :
    add_media c (.nonStr t) mt gt now = (false, c) := rfl

/-- C3: adding the same url twice in succession persists only one entry:
the repeated call returns false and leaves the store exactly as the first
call left it, whatever the first call returned. -/
theorem add_media_repeat (c : MediaCache) (u : PyVal) (mt gt now mt' gt' now' : List Char) :
    add_media (add_media c u mt gt now).2 u mt' gt' now' =
      (false, (add_media c u mt gt now).2) := by
  cases u with
  | nonStr t => rfl
  | str s =>
    by_cases h : s = [] ∨ s.length < 10 ∨ url_scheme_ok s = false ∨ s ∈ c.links ∨
        containsSub mediaTenorPat s = true
    · have e1 : add_media c (.str s) mt gt now = (false, c) := by
        rw [add_media_ite, if_pos h]
      rw [e1]
      rw [add_media_ite, if_pos h]
    · have e1 : add_media c (.str s) mt gt now =
          (true, ⟨c.links ++ [s], dictInsert c.metadata s ⟨s, now, mt, gt⟩⟩) := by
        rw [add_media_ite, if_neg h]
      rw [e1]
      rw [add_media_ite, if_pos]
      exact Or.inr (Or.inr (Or.inr (Or.inl (by simp))))

/-- C4: the blocklist is exactly the substring `media.tenor.com`: any url
containing it is rejected with the store unchanged, even on first
occurrence, while a url containing `tenor.com/view/` but not
`media.tenor.com` is accepted whenever the length, scheme and duplicate
checks pass. -/
theorem add_media_blocklist (c : MediaCache) (u mt gt now : List Char) :
    (containsSub mediaTenorPat u = true →
      add_media c (.str u) mt gt now = (false, c)) ∧
    (containsSub (chars "tenor.com/view/") u = true →
     containsSub mediaTenorPat u = false →
     10 ≤ u.length → url_scheme_ok u = true → u ∉ c.links →
     (add_media c (.str u) mt gt now).1 = true ∧
     (add_media c (.str u) mt gt now).2.links = c.links ++ [u]) := by
  constructor
  · intro h
    rw [add_media_ite, if_pos (Or.inr (Or.inr (Or.inr (Or.inr h))))]
  · intro _ hmt hlen hscheme hmem
    have hne : ¬ (u = [] ∨ u.length < 10 ∨ url_scheme_ok u = false ∨ u ∈ c.links ∨
        containsSub mediaTenorPat u = true) := by
      rintro (h | h | h | h | h)
      · subst h; simp at hlen
      · omega
      · rw [hscheme] at h; exact absurd h (by simp)
      · exact hmem h
      · rw [hmt] at h; exact absurd h (by simp)
    rw [add_media_ite, if_neg hne]
    exact ⟨rfl, rfl⟩

/-- Witness for C4 at concrete inputs: a first-occurrence
`media.tenor.com` link is rejected on the empty store; a valid
`tenor.com/view/` link is accepted. -/
theorem add_media_blocklist_witness :
    add_media emptyCache (.str (chars "https://media.tenor.com/abc.gif"))
        (chars "gif") [] [] = (false, emptyCache) ∧
    (add_media emptyCache (.str (chars "https://tenor.com/view/cat"))
        (chars "gif") [] []).1 = true :=
  ⟨(add_media_blocklist emptyCache (chars "https://media.tenor.com/abc.gif")
      (chars "gif") [] []).1 (by decide),
   ((add_media_blocklist emptyCache (chars "https://tenor.com/view/cat")
      (chars "gif") [] []).2 (by decide) (by decide) (by decide) (by decide)
      (by decide)).1⟩

/-- Deleting a batch of keys one by one is one filter. -/
theorem foldl_dictDelete_eq_filter (ks : List (List Char))
    (m : List (List Char × MediaMeta)) :
    ks.foldl (fun m k => dictDelete m k) m = m.filter (fun p => decide (p.1 ∉ ks)) := by
  induction ks generalizing m with
  | nil =>
    simp only [List.foldl_nil]
    exact (List.filter_eq_self.mpr (fun a _ => by simp)).symm
  | cons k ks ih =>
    simp only [List.foldl_cons]
    rw [ih]
    unfold dictDelete
    rw [List.filter_filter]
    apply List.filter_congr
    intro p _
    by_cases h1 : p.1 = k
    · simp [h1]
    · by_cases h2 : p.1 ∈ ks <;> simp [h1, h2]

/-- The metadata mapping after `clean_tenor_media_from_storage` is exactly
the original filtered by the blocklist predicate on the key. -/
theorem clean_tenor_metadata (c : MediaCache) :
    (clean_tenor_media_from_storage c).cache.metadata =
      c.metadata.filter (fun p => ¬ containsSub mediaTenorPat p.1 = true) := by
  show ((c.metadata.map Prod.fst).filter (fun url => containsSub mediaTenorPat url)).foldl
      (fun m url => dictDelete m url) c.metadata = _
  rw [foldl_dictDelete_eq_filter]
  apply List.filter_congr
  intro p hp
  have hk : p.1 ∈ c.metadata.map Prod.fst := List.mem_map_of_mem Prod.fst hp
  by_cases h : containsSub mediaTenorPat p.1 = true
  · have hmem : p.1 ∈ (c.metadata.map Prod.fst).filter
        (fun url => containsSub mediaTenorPat url) := List.mem_filter.mpr ⟨hk, h⟩
    simp [hmem, h]
  · have hnot : p.1 ∉ (c.metadata.map Prod.fst).filter
        (fun url => containsSub mediaTenorPat url) := by
      intro hmem
      exact h (List.mem_filter.mp hmem).2
    simp [hnot, h]

/-- Splitting the complement filter off a list accounts for its whole
length. -/
theorem length_filter_not_add (p : List Char → Bool) (l : List (List Char)) :
    (l.filter (fun a => ¬ p a = true)).length + (l.filter p).length = l.length := by
  induction l with
  | nil => rfl
  | cons a l ih =>
    simp only [List.filter_cons]
    by_cases h : p a = true
    · rw [if_neg (by simp [h]), if_pos h, List.length_cons, List.length_cons]
      omega
    · rw [if_pos (by simp [h]), if_neg h, List.length_cons, List.length_cons]
      omega

/-- C5: `purge` removes exactly the entries whose URL contains
`media.tenor.com` from both the ordered sequence and the metadata
mapping, keeps every other entry in its original order, returns the
removed count (the size delta of the sequence, i.e. the number of
matching links), and persists the store if and only if that count is
positive. -/
theorem clean_tenor_correct (c : MediaCache) :
    (clean_tenor_media_from_storage c).cache.links =
        c.links.filter (fun url => ¬ containsSub mediaTenorPat url = true) ∧
    (clean_tenor_media_from_storage c).cache.metadata =
        c.metadata.filter (fun p => ¬ containsSub mediaTenorPat p.1 = true) ∧
    (clean_tenor_media_from_storage c).removed =
        c.links.length - (clean_tenor_media_from_storage c).cache.links.length ∧
    (clean_tenor_media_from_storage c).removed =
        (c.links.filter (fun url => containsSub mediaTenorPat url)).length ∧
    (clean_tenor_media_from_storage c).saved =
        (if 0 < (clean_tenor_media_from_storage c).removed
         then some (save_media_data (clean_tenor_media_from_storage c).cache)
         else none) := by
  refine ⟨rfl, clean_tenor_metadata c, rfl, ?_, rfl⟩
  show c.links.length -
      (c.links.filter (fun url => ¬ containsSub mediaTenorPat url = true)).length = _
  have := length_filter_not_add (fun url => containsSub mediaTenorPat url) c.links
  omega

/-- Splitting off the first separator of a separator-free chunk. -/
theorem splitOnChar_append (sep : Char) (a b : List Char) (h : sep ∉ a) :
    splitOnChar sep (a ++ sep :: b) = a :: splitOnChar sep b := by
  induction a with
  | nil => simp [splitOnChar]
  | cons c a ih =>
    have hc : ¬ c = sep := fun e => h (e ▸ List.mem_cons_self c a)
    have ha : sep ∉ a := fun hm => h (List.mem_cons_of_mem c hm)
    simp only [List.cons_append, splitOnChar, if_neg hc, List.append_eq]
    rw [ih ha]

/-- Universal-newline translation is the identity on carriage-return-free
text. -/
theorem univNewlines_of_no_cr (l : List Char) (h : '\r' ∉ l) :
    univNewlines l = l := by
  induction l with
  | nil => rfl
  | cons c rest ih =>
    have hc : ¬ c = '\r' := fun e => h (e ▸ List.mem_cons_self c rest)
    have hr : '\r' ∉ rest := fun hm => h (List.mem_cons_of_mem c hm)
    cases rest with
    | nil => simp [univNewlines, hc]
    | cons d rest2 =>
      rw [show univNewlines (c :: d :: rest2) = c :: univNewlines (d :: rest2) by
        simp [univNewlines, hc]]
      rw [ih hr]

/-- The split-strip-filter pipeline of the loader inverts the saved text,
provided every link is non-empty, newline-free and already stripped. -/
theorem split_strip_filter_save (links : List (List Char))
    (h : ∀ l ∈ links, l ≠ [] ∧ '\n' ∉ l ∧ strip l = l) :
    ((splitOnChar '\n' ((links.map (fun l => l ++ ['\n'])).flatten)).map strip).filter
      (fun l => ¬ l.isEmpty = true) = links := by
  induction links with
  | nil => rfl
  | cons l ls ih =>
    obtain ⟨h1, h2, h3⟩ := h l (List.mem_cons_self l ls)
    have hrest := fun x hx => h x (List.mem_cons_of_mem l hx)
    have e : (((l :: ls).map (fun x => x ++ ['\n'])).flatten) =
        l ++ '\n' :: ((ls.map (fun x => x ++ ['\n'])).flatten) := by
      simp
    rw [e]
    rw [splitOnChar_append '\n' l _ h2]
    simp only [List.map_cons, h3, List.filter_cons]
    rw [if_pos (by simp [h1])]
    exact congrArg (l :: ·) (ih hrest)

/-- Loading the saved link file gives back the link list, provided every
link is non-empty, free of newline and carriage-return characters, and
already stripped. -/
theorem load_links_save (links : List (List Char))
    (h : ∀ l ∈ links, l ≠ [] ∧ '\n' ∉ l ∧ '\r' ∉ l ∧ strip l = l) :
    load_links ((links.map (fun l => l ++ ['\n'])).flatten) = links := by
  have hncr : '\r' ∉ (links.map (fun l => l ++ ['\n'])).flatten := by
    intro hm
    obtain ⟨x, hx, hmx⟩ := List.mem_flatten.mp hm
    obtain ⟨l, hl, rfl⟩ := List.mem_map.mp hx
    rcases List.mem_append.mp hmx with hmem | hmem
    · exact (h l hl).2.2.1 hmem
    · rw [List.mem_singleton] at hmem
      exact absurd hmem (by decide)
  unfold load_links
  rw [univNewlines_of_no_cr _ hncr]
  exact split_strip_filter_save links
    (fun x hx => ⟨(h x hx).1, (h x hx).2.1, (h x hx).2.2.2⟩)

/-- Keyed insertion of an absent key appends. -/
theorem dictInsert_of_not_mem (m : List (List Char × MediaMeta)) (k : List Char)
    (v : MediaMeta) (h : k ∉ m.map Prod.fst) :
    dictInsert m k v = m ++ [(k, v)] := by
  induction m with
  | nil => rfl
  | cons p m ih =>
    simp only [List.map_cons, List.mem_cons, not_or] at h
    obtain ⟨hne, hnm⟩ := h
    obtain ⟨k', v'⟩ := p
    simp only [dictInsert]
    rw [if_neg (fun e => hne e.symm), ih hnm, List.cons_append]

/-- Folding keyed insertion over records with fresh, pairwise distinct
URLs appends them all in order. -/
theorem load_meta_fold_append (items : List MediaMeta)
    (acc : List (List Char × MediaMeta))
    (hd : ∀ i ∈ items, i.url ∉ acc.map Prod.fst)
    (hn : (items.map MediaMeta.url).Nodup) :
    items.foldl (fun m item => dictInsert m item.url item) acc =
      acc ++ items.map (fun i => (i.url, i)) := by
  induction items generalizing acc with
  | nil => simp
  | cons i items ih =>
    simp only [List.map_cons, List.nodup_cons, List.mem_map] at hn
    obtain ⟨hni, hns⟩ := hn
    simp only [List.foldl_cons]
    rw [dictInsert_of_not_mem _ _ _ (hd i (List.mem_cons_self i items))]
    rw [ih (acc ++ [(i.url, i)]) ?fresh hns]
    · simp
    case fresh =>
      intro j hj
      simp only [List.map_append, List.mem_append, not_or]
      constructor
      · exact hd j (List.mem_cons_of_mem i hj)
      · simp only [List.map_cons, List.map_nil, List.mem_singleton]
        intro e
        exact hni ⟨j, hj, e⟩

/-- Loading the saved metadata array rebuilds the mapping, provided keys
are pairwise distinct and every record's URL equals its key. -/
theorem load_meta_save (m : List (List Char × MediaMeta))
    (hn : (m.map Prod.fst).Nodup)
    (hu : ∀ p ∈ m, p.2.url = p.1) :
    load_meta (m.map Prod.snd) = m := by
  unfold load_meta
  have hkeys : (m.map Prod.snd).map MediaMeta.url = m.map Prod.fst := by
    rw [List.map_map]
    exact List.map_congr_left (fun p hp => hu p hp)
  rw [load_meta_fold_append _ [] (fun i _ => List.not_mem_nil i.url) (hkeys ▸ hn)]
  simp only [List.nil_append, List.map_map]
  have : ∀ p ∈ m, ((fun i => (MediaMeta.url i, i)) ∘ Prod.snd) p = id p := by
    intro p hp
    simp [Function.comp, hu p hp]
  rw [List.map_congr_left this, List.map_id]

/-- Persist-then-load is the identity on stores whose links are
non-empty, stripped, newline-free strings with distinct, matching
metadata keys. -/
theorem load_save_id (c : MediaCache)
    (h1 : ∀ l ∈ c.links, l ≠ [] ∧ '\n' ∉ l ∧ '\r' ∉ l ∧ strip l = l)
    (h2 : (c.metadata.map Prod.fst).Nodup)
    (h3 : ∀ p ∈ c.metadata, p.2.url = p.1) :
    load_media_data (save_media_data c) = c := by
  unfold load_media_data save_media_data
  simp only
  rw [load_links_save _ h1, load_meta_save _ h2 h3]

/-- C6 counterexample: the round-trip does not hold for every in-memory
state.  The URL `"https://ab "` (with a trailing space) is accepted by
`add_media` from the empty store, yet persist-then-load strips it, so the
reloaded sequence differs from the persisted one. -/
theorem save_load_round_trip_ce :
    (add_media emptyCache (.str ceUrl) (chars "image") [] (chars "t0")).1 = true ∧
    load_media_data (save_media_data ceCache) ≠ ceCache := by decide

/-- C6 (amended): persist followed by load reproduces an equal ordered
URL sequence and an equal URL → metadata mapping for every store whose
URLs are non-empty, stripped, and free of newline and carriage-return
characters, and whose metadata keys are pairwise distinct and equal to
their record's URL field — which the line-based link file format and the
reader's universal-newline translation require. -/
theorem save_load_round_trip (c : MediaCache)
    (h1 : ∀ l ∈ c.links, l ≠ [] ∧ '\n' ∉ l ∧ '\r' ∉ l ∧ strip l = l)
    (h2 : (c.metadata.map Prod.fst).Nodup)
    (h3 : ∀ p ∈ c.metadata, p.2.url = p.1) :
    load_media_data (save_media_data c) = c :=
  load_save_id c h1 h2 h3

/-- Witness for C6 at a concrete one-entry store. -/
theorem save_load_round_trip_witness :
    (∀ l ∈ oneCache.links, l ≠ [] ∧ '\n' ∉ l ∧ '\r' ∉ l ∧ strip l = l) ∧
    load_media_data (save_media_data oneCache) = oneCache :=
  ⟨by decide, save_load_round_trip oneCache (by decide) (by decide) (by decide)⟩

/-- A list each of whose members occurs exactly once has no
duplicates. -/
theorem nodup_of_count_eq_one (l : List (List Char))
    (h : ∀ a ∈ l, l.count a = 1) : l.Nodup := by
  induction l with
  | nil => exact List.nodup_nil
  | cons a l ih =>
    rw [List.nodup_cons]
    refine ⟨?_, ?_⟩
    · intro hmem
      have ha := h a (List.mem_cons_self a l)
      rw [List.count_cons_self] at ha
      have hpos : 0 < l.count a := List.count_pos_iff.mpr hmem
      omega
    · apply ih
      intro b hb
      have hbc := h b (List.mem_cons_of_mem a hb)
      rw [List.count_cons] at hbc
      simp only [beq_iff_eq] at hbc
      have hpos : 0 < l.count b := List.count_pos_iff.mpr hb
      rcases eq_or_ne a b with hab | hab
      · rw [if_pos hab] at hbc
        omega
      · rw [if_neg hab] at hbc
        omega

/-- Counting a member kept by a filter is unchanged by the filter. -/
theorem count_filter_of_pos (p : List Char → Bool) (l : List (List Char))
    (a : List Char) (h : p a = true) : (l.filter p).count a = l.count a := by
  induction l with
  | nil => rfl
  | cons b l ih =>
    rw [List.filter_cons, List.count_cons]
    by_cases hb : p b = true
    · rw [if_pos hb, List.count_cons, ih]
    · rw [if_neg hb, ih]
      have hne : ¬ b = a := fun e => hb (e ▸ h)
      simp [hne]
theorem storeInv_keys_nodup (c : MediaCache) (hc : StoreInv c) :
    (c.metadata.map Prod.fst).Nodup := by
  apply nodup_of_count_eq_one
  intro k hk
  obtain ⟨p, hp, he⟩ := List.mem_map.mp hk
  exact hc.2.1 k (he ▸ hc.2.2 p hp)

/-- C2 counterexample: `load` does not preserve the invariant.  Run from
the empty store (which satisfies the invariant), loading a link file that
repeats one URL on two lines yields a store with a duplicated ordered
sequence and no matching metadata. -/
theorem store_inv_ce :
    StoreInv emptyCache ∧ ¬ StoreInv (load_media_data dupFiles) := by decide

/-- C2 (amended): `add` and `purge` always preserve the store invariant;
`load`, which replaces the store with whatever the files contain, need
not, but it re-establishes the invariant when it reads files persisted
from an invariant-satisfying store with well-formed URLs (non-empty,
stripped, free of newline and carriage-return characters, metadata keys
matching their record's URL field). -/
theorem store_inv_preserved (c : MediaCache) (hc : StoreInv c) (u : PyVal)
    (mt gt now : List Char) :
    StoreInv (add_media c u mt gt now).2 ∧
    StoreInv (clean_tenor_media_from_storage c).cache ∧
    ((∀ l ∈ c.links, l ≠ [] ∧ '\n' ∉ l ∧ '\r' ∉ l ∧ strip l = l) →
     (∀ p ∈ c.metadata, p.2.url = p.1) →
     StoreInv (load_media_data (save_media_data c))) := by
  obtain ⟨hnd, hcnt, hsub⟩ := hc
  refine ⟨?_, ?_, fun h1 h3 => ?_⟩
  · -- add
    cases u with
    | nonStr t => exact ⟨hnd, hcnt, hsub⟩
    | str s =>
      by_cases hB : s = [] ∨ s.length < 10 ∨ url_scheme_ok s = false ∨ s ∈ c.links ∨
          containsSub mediaTenorPat s = true
      · rw [add_media_ite, if_pos hB]
        exact ⟨hnd, hcnt, hsub⟩
      · rw [add_media_ite, if_neg hB]
        push_neg at hB
        obtain ⟨-, -, -, hmem, -⟩ := hB
        have hkeys : s ∉ c.metadata.map Prod.fst := by
          intro hk
          obtain ⟨p, hp, he⟩ := List.mem_map.mp hk
          exact hmem (he ▸ hsub p hp)
        refine ⟨?_, ?_, ?_⟩
        · exact List.Nodup.append hnd (List.nodup_singleton s)
            (List.disjoint_singleton.mpr hmem)
        · intro x hx
          rw [dictInsert_of_not_mem _ _ _ hkeys, List.map_append, List.count_append]
          rcases List.mem_append.mp hx with hx | hx
          · have hxs : x ≠ s := fun e => hmem (e ▸ hx)
            rw [hcnt x hx]
            simp [List.count_singleton', hxs]
          · rw [List.mem_singleton.mp hx]
            rw [List.count_eq_zero.mpr hkeys]
            simp [List.count_singleton']
        · intro p hp
          rw [dictInsert_of_not_mem _ _ _ hkeys] at hp
          rcases List.mem_append.mp hp with hp | hp
          · exact List.mem_append_left _ (hsub p hp)
          · rw [List.mem_singleton.mp hp]
            exact List.mem_append_right _ (List.mem_singleton.mpr rfl)
  · -- purge
    unfold StoreInv
    rw [clean_tenor_metadata]
    refine ⟨List.Nodup.filter _ hnd, ?_, ?_⟩
    · intro x hx
      have hx' := List.mem_filter.mp hx
      have hkeysEq : (c.metadata.filter
            (fun p => ¬ containsSub mediaTenorPat p.1 = true)).map Prod.fst =
          (c.metadata.map Prod.fst).filter
            (fun k => ¬ containsSub mediaTenorPat k = true) := by
        rw [List.filter_map]
        rfl
      rw [hkeysEq, count_filter_of_pos _ _ _ hx'.2]
      exact hcnt x hx'.1
    · intro p hp
      have hp' := List.mem_filter.mp hp
      exact List.mem_filter.mpr ⟨hsub p hp'.1, hp'.2⟩
  · -- load after persist
    rw [load_save_id c h1 (storeInv_keys_nodup c ⟨hnd, hcnt, hsub⟩) h3]
    exact ⟨hnd, hcnt, hsub⟩

/-- Witness for C2 at a concrete one-entry store and a fresh URL. -/
theorem store_inv_preserved_witness :
    StoreInv (add_media oneCache (.str (chars "https://x.org/b.gif"))
        (chars "gif") [] (chars "t2")).2 ∧
    StoreInv (clean_tenor_media_from_storage oneCache).cache ∧
    StoreInv (load_media_data (save_media_data oneCache)) :=
  ⟨(store_inv_preserved oneCache (by decide) (.str (chars "https://x.org/b.gif"))
      (chars "gif") [] (chars "t2")).1,
   (store_inv_preserved oneCache (by decide) (.str (chars "https://x.org/b.gif"))
      (chars "gif") [] (chars "t2")).2.1,
   (store_inv_preserved oneCache (by decide) (.str (chars "https://x.org/b.gif"))
      (chars "gif") [] (chars "t2")).2.2 (by decide) (by decide)⟩

/-- C7: scanning the four-message history (an `image/gif` attachment, a
`tenor.com/view` text link, a `.PNG` text link, and a `media.tenor.com`
text link) from the empty store finds exactly 3 entries, stores them with
types `gif`, `gif` and `image` respectively, and stores no
`media.tenor.com` link. -/
theorem scan_scenario :
    (perform_scan scenarioMsgs emptyCache (chars "t")).2 = 3 ∧
    (perform_scan scenarioMsgs emptyCache (chars "t")).1.links =
      [ chars "https://cdn.discordapp.com/attachments/1/2/dance.gif"
      , chars "https://tenor.com/view/cat-dance-12345"
      , chars "https://cdn.example.com/pic.PNG" ] ∧
    (dictLookup (perform_scan scenarioMsgs emptyCache (chars "t")).1.metadata
        (chars "https://cdn.discordapp.com/attachments/1/2/dance.gif")).map
        MediaMeta.type = some (chars "gif") ∧
    (dictLookup (perform_scan scenarioMsgs emptyCache (chars "t")).1.metadata
        (chars "https://tenor.com/view/cat-dance-12345")).map
        MediaMeta.type = some (chars "gif") ∧
    (dictLookup (perform_scan scenarioMsgs emptyCache (chars "t")).1.metadata
        (chars "https://cdn.example.com/pic.PNG")).map
        MediaMeta.type = some (chars "image") ∧
    (∀ u ∈ (perform_scan scenarioMsgs emptyCache (chars "t")).1.links,
      containsSub mediaTenorPat u = false) := by decide

/-- C8 counterexample: with a present, well-formed template bank that
merely lacks the `greetings` key, caption generation does not return the
fixed default caption: the greeting falls back to the built-in pool and
the chosen template is still interpolated. -/
theorem generate_message_missing_greetings_ce :
    wbNoGreetings.greetings = none ∧
    generate_message (some wbNoGreetings) 0 0 0 = chars "Check this out! is cool" ∧
    generate_message (some wbNoGreetings) 0 0 0 ≠ defaultCaption := by decide

/-- C8 (amended): with the `greetings` key missing, caption generation
never raises — every exception path is caught — and the result is either
the fixed default caption (empty bank, missing or empty template pool,
or failed interpolation) or a chosen template interpolated with the
built-in fallback greeting `"Check this out!"`, not the default
caption. -/
theorem generate_message_missing_greetings (w : WordBase)
    (hw : w.greetings = none) (i j k : Nat) :
    generate_message (some w) i j k = defaultCaption ∨
    (∃ t a m, pyChoice (w.templates.getD []) i = some t ∧
      pyChoice (w.descriptive_words.getD [defaultAdjective]) k = some a ∧
      formatTemplate t defaultGreeting a = some m ∧
      generate_message (some w) i j k = m) := by
  have hred : generate_message (some w) i j k =
      (if wbFalsy w = true then defaultCaption
       else
         match pyChoice (w.templates.getD []) i,
               pyChoice (w.greetings.getD [defaultGreeting]) j,
               pyChoice (w.descriptive_words.getD [defaultAdjective]) k with
         | some t, some g, some a =>
           (match formatTemplate t g a with
            | some m => m
            | none => defaultCaption)
         | _, _, _ => defaultCaption) := rfl
  rw [hred, hw]
  simp only [Option.getD_none]
  by_cases hf : wbFalsy w = true
  · rw [if_pos hf]
    exact Or.inl rfl
  · rw [if_neg hf]
    have hg : pyChoice [defaultGreeting] j = some defaultGreeting := by
      unfold pyChoice
      simp [Nat.mod_one]
    rw [hg]
    split
    next x1 x2 x3 t g a h1 h2 h3 =>
      obtain rfl : defaultGreeting = g := by injection h2
      cases hm : formatTemplate t defaultGreeting a with
      | none => exact Or.inl rfl
      | some m => exact Or.inr ⟨t, a, m, h1, h3, hm, rfl⟩
    next => exact Or.inl rfl

/-- Witness for C8 at the concrete greetingless bank. -/
theorem generate_message_missing_greetings_witness :
    generate_message (some wbNoGreetings) 0 0 0 = defaultCaption ∨
    (∃ t a m, pyChoice (wbNoGreetings.templates.getD []) 0 = some t ∧
      pyChoice (wbNoGreetings.descriptive_words.getD [defaultAdjective]) 0 = some a ∧
      formatTemplate t defaultGreeting a = some m ∧
      generate_message (some wbNoGreetings) 0 0 0 = m) :=
  generate_message_missing_greetings wbNoGreetings rfl 0 0 0

/-- C9: with posting enabled and the configured probability equal to 0,
every firing of the posting loop aborts right after the jitter sleep and
before any channel send, for every value the uniform [0,1) draw can
take: the observable trace is exactly the sleep, with no send action. -/
theorem posting_cycle_prob_zero (e : PostEnv) (hen : e.posting_enabled = true)
    (hp : e.posting_probability = 0) (hd : 0 ≤ e.draw) :
    media_posting_cycle e = [Action.sleep e.offset] := by
  have h : should_post_media e.draw e.posting_probability = false := by
    unfold should_post_media
    rw [hp]
    simp [not_lt.mpr hd]
  unfold media_posting_cycle
  rw [hen]
  simp [h]

/-- Witness for C9 at a concrete environment whose store and target
channel would otherwise receive a post. -/
theorem posting_cycle_prob_zero_witness :
    media_posting_cycle probZeroEnv = [Action.sleep probZeroEnv.offset] :=
  posting_cycle_prob_zero probZeroEnv rfl rfl (by norm_num [probZeroEnv])

end GlipaBot
